import Mathlib

set_option maxRecDepth 100000

/-!
Shallow embedding of the raster-to-SVG rectangle conversion implemented in
`src/app/api/convert/route.ts` (the `POST` handler's core: pixel sampling,
color-key quantization, per-color bucketing, sort + horizontal merge, and
SVG serialization), together with proofs about it.

Machine arithmetic notes (all justified where used):
* JavaScript `Math.round(c/2)` for a byte `c` is exact in binary floating
  point (`c/2` has fractional part 0 or .5 exactly) and rounds halves up,
  so it equals `(c + 1) / 2` in natural-number division.
* `Math.round((n/255)*20)` for a byte `n`: the exact value `4n/51` is never
  a half-integer (`8n = 51·odd` is impossible on parity grounds), and the
  floating-point evaluation error (~1e-16) is far below the distance to the
  nearest tie (≥ 1/102), so the result equals the nearest integer to
  `4n/51`, i.e. `(8n + 51) / 102` in natural-number division.
* JavaScript renders the number `k/20` (k = 0..20) with its shortest
  round-tripping decimal: "0", "0.05", "0.1", ..., "0.95", "1";
  `formatAlpha` tabulates exactly that rendering.
-/

namespace ImgToSvg

/-- The `Rect` interface of the source: `{x, y, width, height}`. -/
structure Rect where
  x : Nat
  y : Nat
  width : Nat
  height : Nat
deriving DecidableEq, Repr

/-- Pixel-buffer access `data[i]`; a well-formed RGBA buffer has
`data.length = 4 * W * H` and all entries ≤ 255. -/
def px (data : List Nat) (i : Nat) : Nat := data.getD i 0

/-- `Math.round(c / 2) * 2` for a natural channel value `c` (exact, see note). -/
def q2 (c : Nat) : Nat := ((c + 1) / 2) * 2

/-- `Math.round((n / 255) * 20)` for a natural alpha byte `n` (exact, see note). -/
def aq (n : Nat) : Nat := (8 * n + 51) / 102

/-- JavaScript string rendering of the number `k / 20` for `k = 0..20`. -/
def formatAlpha (k : Nat) : String :=
  if k = 0 then "0"
  else if k = 20 then "1"
  else if k % 2 = 0 then "0." ++ Nat.repr (k / 2)
  else if k = 1 then "0.05"
  else "0." ++ Nat.repr (5 * k)

/-- The color key template literal of line 86:
`rgba(${Math.round(r/2)*2},${Math.round(g/2)*2},${Math.round(b/2)*2},${Math.round(a*20)/20})`. -/
def colorKey (r g b n : Nat) : String :=
  "rgba(" ++ Nat.repr (q2 r) ++ "," ++ Nat.repr (q2 g) ++ "," ++ Nat.repr (q2 b)
    ++ "," ++ formatAlpha (aq n) ++ ")"

/-- Lines 70-71: `Math.max(1, Math.floor(Math.min(W, H) / 400))`. -/
def sampleRate (W H : Nat) : Nat := max 1 (min W H / 400)

/-- Number of iterations of a loop `for (v = 0; v < n; v += s)`:
the visited values are `0, s, 2s, ...` below `n`, i.e. `⌈n / s⌉` of them. -/
def gridCount (n s : Nat) : Nat := (n + s - 1) / s

/-- One iteration of the sampling loop body (lines 76-95) at pixel `(x, y)`:
read RGBA at `idx = (y*W + x)*4`, skip if fully transparent, otherwise
produce the color key and the cell `{x, y, width: s, height: s}`. -/
def sampleAt (W : Nat) (data : List Nat) (s x y : Nat) : Option (String × Rect) :=
  if px data ((y * W + x) * 4 + 3) = 0 then none
  else some (colorKey (px data ((y * W + x) * 4)) (px data ((y * W + x) * 4 + 1))
      (px data ((y * W + x) * 4 + 2)) (px data ((y * W + x) * 4 + 3)),
    ⟨x, y, s, s⟩)

/-- The double sampling loop of lines 74-97, in row-major order. -/
def samplePairs (W H : Nat) (data : List Nat) (s : Nat) : List (String × Rect) :=
  (List.range (gridCount H s)).flatMap fun j =>
    (List.range (gridCount W s)).filterMap fun i => sampleAt W data s (i * s) (j * s)

/-- `colorMap.set` / `push` of lines 88-95: append the cell to the existing
entry for the key, or append a fresh entry at the end (JS `Map` preserves
key insertion order). -/
def insertCell (m : List (String × List Rect)) (k : String) (c : Rect) :
    List (String × List Rect) :=
  match m with
  | [] => [(k, [c])]
  | e :: rest => if e.1 = k then (e.1, e.2 ++ [c]) :: rest else e :: insertCell rest k c

/-- Building the `colorMap` by running the sampling loop. -/
def buildMap (samples : List (String × Rect)) : List (String × List Rect) :=
  samples.foldl (fun m e => insertCell m e.1 e.2) []

def colorMap (W H : Nat) (data : List Nat) (s : Nat) : List (String × List Rect) :=
  buildMap (samplePairs W H data s)

/-- The comparator of line 131, `a.y === b.y ? a.x - b.x : a.y - b.y`,
read as a "less or equal" test (comparator result ≤ 0). -/
def cellLE (a b : Rect) : Bool :=
  Nat.blt a.y b.y || (Nat.beq a.y b.y && Nat.ble a.x b.x)

/-- `rects.sort(...)` of line 131: a stable sort by `(y, x)`. -/
def sortCells (l : List Rect) : List Rect := l.mergeSort cellLE

/-- The merge loop of `optimizeRects` (lines 106-121): `current` is the
accumulator; a cell on the same row with the same height starting exactly at
`current`'s right edge extends `current`, anything else emits `current`. -/
def mergeRun (current : Rect) : List Rect → List Rect
  | [] => [current]
  | r :: rest =>
    if r.y = current.y ∧ r.height = current.height ∧ r.x = current.x + current.width then
      mergeRun ⟨current.x, current.y, current.width + r.width, current.height⟩ rest
    else
      current :: mergeRun r rest

/-- `optimizeRects` (lines 100-123). -/
def optimizeRects : List Rect → List Rect
  | [] => []
  | r :: rest => mergeRun r rest

/-- The serialization loop of lines 129-140 flattened to the emitted
`(color, rect)` instruction sequence: for each color bucket in insertion
order, sort, merge, then emit one instruction per merged rectangle. -/
def rectInstrs (W H : Nat) (data : List Nat) (s : Nat) : List (String × Rect) :=
  (colorMap W H data s).flatMap fun e =>
    (optimizeRects (sortCells e.2)).map fun r => (e.1, r)

/-- The `<rect .../>` template literal of line 138. -/
def rectElem (k : String) (r : Rect) : String :=
  "<rect x=\"" ++ Nat.repr r.x ++ "\" y=\"" ++ Nat.repr r.y
    ++ "\" width=\"" ++ Nat.repr r.width ++ "\" height=\"" ++ Nat.repr r.height
    ++ "\" fill=\"" ++ k ++ "\" />"

/-- The surrounding SVG template literal of lines 143-146. -/
def mkSvg (W H : Nat) (paths : String) : String :=
  "<?xml version=\"1.0\" encoding=\"UTF-8\" standalone=\"no\"?>\n<svg width=\""
    ++ Nat.repr W ++ "\" height=\"" ++ Nat.repr H
    ++ "\" xmlns=\"http://www.w3.org/2000/svg\" viewBox=\"0 0 "
    ++ Nat.repr W ++ " " ++ Nat.repr H ++ "\">\n  " ++ paths ++ "\n</svg>"

/-- `svgPaths` accumulated over lines 126-140. -/
def svgPaths (W H : Nat) (data : List Nat) (s : Nat) : String :=
  String.join ((rectInstrs W H data s).map fun e => rectElem e.1 e.2)

/-- The full conversion: pixel buffer in, SVG document text out. -/
def svg (W H : Nat) (data : List Nat) : String :=
  mkSvg W H (svgPaths W H data (sampleRate W H))

/-- Lookup of a color bucket in the color map (JS `colorMap.get(key)`,
empty list when absent). -/
def bucketOf (m : List (String × List Rect)) (k : String) : List Rect :=
  match m with
  | [] => []
  | e :: rest => if e.1 = k then e.2 else bucketOf rest k

/-- Strict grid order on cells of stride `s`: strictly later row, or the same
row with the column at least `s` further right. The cells produced by the
sampling loop are pairwise in this order. -/
def succCell (s : Nat) (c1 c2 : Rect) : Prop :=
  c1.y < c2.y ∨ (c1.y = c2.y ∧ c1.x + s ≤ c2.x)

/-- Rectangle `r` covers cell `c`: same row and the cell's horizontal span is
inside the rectangle's. -/
def coversB (r c : Rect) : Bool :=
  r.y == c.y && Nat.ble r.x c.x && Nat.ble (c.x + c.width) (r.x + r.width)

/-- `r` lies strictly before `c` starts: earlier row, or same row ending at or
before `c`'s left edge. -/
def afterEnd (r c : Rect) : Prop := r.y < c.y ∨ (r.y = c.y ∧ r.x + r.width ≤ c.x)

/-- A decimal fraction in [0,1] as a string: `0`, `1`, or `0.` followed by at
least one digit (the spec's "A a decimal fraction"). -/
def isDecimalFraction (A : String) : Bool :=
  A == "0" || A == "1" ||
    (match A.data with
     | '0' :: '.' :: rest => !rest.isEmpty && rest.all Char.isDigit
     | _ => false)

/-- The spec's required fill shape: `rgba(R,G,B,A)` with `A` a decimal
fraction. -/
def IsRgbaFill (f : String) : Prop :=
  ∃ R G B : Nat, ∃ A : String, isDecimalFraction A = true ∧
    f = "rgba(" ++ Nat.repr R ++ "," ++ Nat.repr G ++ "," ++ Nat.repr B
      ++ "," ++ A ++ ")"

/-- The spec's required shape of one filled-rectangle element: `x`, `y`,
`width`, `height` and `fill` attributes, fill in `rgba` form. -/
def IsRectElem (e : String) : Prop :=
  ∃ x y w h : Nat, ∃ fill : String, IsRgbaFill fill ∧
    e = "<rect x=\"" ++ Nat.repr x ++ "\" y=\"" ++ Nat.repr y
      ++ "\" width=\"" ++ Nat.repr w ++ "\" height=\"" ++ Nat.repr h
      ++ "\" fill=\"" ++ fill ++ "\" />"

/-- The spec's required document shape: an XML declaration, a root `svg`
element declaring `width`, `height`, the SVG namespace and a
`viewBox = "0 0 width height"`, containing a sequence of filled-rectangle
elements. -/
def SpecWellFormedDoc (W H : Nat) (doc : String) : Prop :=
  ∃ elems : List String, (∀ e ∈ elems, IsRectElem e) ∧
    doc = "<?xml version=\"1.0\" encoding=\"UTF-8\" standalone=\"no\"?>\n<svg width=\""
      ++ Nat.repr W ++ "\" height=\"" ++ Nat.repr H
      ++ "\" xmlns=\"http://www.w3.org/2000/svg\" viewBox=\"0 0 "
      ++ Nat.repr W ++ " " ++ Nat.repr H ++ "\">\n  "
      ++ String.join elems ++ "\n</svg>"

/-! ### The sampling grid -/

theorem mul_lt_of_lt_gridCount {n s i : Nat} (hs : 0 < s) (h : i < gridCount n s) :
    i * s < n := by
  unfold gridCount at h
  have h2 : (i + 1) * s ≤ n + s - 1 := (Nat.le_div_iff_mul_le hs).mp h
  rw [Nat.add_mul, Nat.one_mul] at h2
  omega

theorem lt_gridCount_of_mul_lt {n s i : Nat} (hs : 0 < s) (h : i * s < n) :
    i < gridCount n s := by
  have h2 : (i + 1) * s ≤ n + s - 1 := by rw [Nat.add_mul, Nat.one_mul]; omega
  exact (Nat.le_div_iff_mul_le hs).mpr h2

theorem gridCount_zero (s : Nat) : gridCount 0 s = 0 := by
  rcases Nat.eq_zero_or_pos s with h | h
  · subst h; rfl
  · exact Nat.div_eq_of_lt (by omega)

theorem samplePairs_width_zero (H : Nat) (data : List Nat) (s : Nat) :
    samplePairs 0 H data s = [] := by
  apply List.flatMap_eq_nil_iff.mpr
  intro j _
  simp [gridCount_zero]

theorem samplePairs_height_zero (W : Nat) (data : List Nat) (s : Nat) :
    samplePairs W 0 data s = [] := by
  unfold samplePairs
  simp [gridCount_zero]

/-- A bucket already sorted by the comparator is left unchanged by the sort
(the source re-sorts buckets that the row-major scan produced in order). -/
theorem sortCells_sorted_eq {l : List Rect}
    (h : List.Pairwise (fun a b => cellLE a b = true) l) : sortCells l = l :=
  List.mergeSort_of_sorted h

/-! ### Claim theorems -/

/-- Input buffer for the spec's end-to-end example: a 2-by-1 image whose two
pixels are both (255, 0, 0, 255). -/
def bufC1 : List Nat := [255, 0, 0, 255, 255, 0, 0, 255]

set_option maxRecDepth 4000 in
/-- The instruction sequence emitted for `bufC1`. -/
theorem rectInstrs_bufC1 :
    rectInstrs 2 1 bufC1 (sampleRate 2 1)
      = [("rgba(256,0,0,1)", ⟨0, 0, 2, 1⟩)] := by
  have hcm : colorMap 2 1 bufC1 (sampleRate 2 1)
      = [("rgba(256,0,0,1)", [⟨0, 0, 1, 1⟩, ⟨1, 0, 1, 1⟩])] := by decide
  have hs : sortCells [⟨0, 0, 1, 1⟩, ⟨1, 0, 1, 1⟩] = [⟨0, 0, 1, 1⟩, ⟨1, 0, 1, 1⟩] :=
    sortCells_sorted_eq (by decide)
  unfold rectInstrs
  rw [hcm, List.flatMap_cons, List.flatMap_nil, hs]
  decide

/-- C1 (counterexample): on the 2-by-1 all-(255,0,0,255) buffer at stride 1
the single emitted rectangle's fill is NOT the claimed `rgba(254,0,0,1)`:
JavaScript `Math.round(255/2)*2 = Math.round(127.5)*2 = 128*2 = 256`. -/
theorem C1_counterexample :
    (rectInstrs 2 1 bufC1 (sampleRate 2 1)).map Prod.fst ≠ ["rgba(254,0,0,1)"] := by
  rw [rectInstrs_bufC1]
  decide

/-- C1 (amended): for the 2-by-1 buffer whose two pixels are both
(255,0,0,255), converted at stride 1, the pipeline emits exactly one merged
rectangle {x:0, y:0, width:2, height:1} whose fill is `rgba(256,0,0,1)`
(`Math.round` rounds the half value 127.5 up), and the emitted document
declares width=2 and height=1. -/
theorem C1_end_to_end :
    sampleRate 2 1 = 1
    ∧ rectInstrs 2 1 bufC1 (sampleRate 2 1) = [("rgba(256,0,0,1)", ⟨0, 0, 2, 1⟩)]
    ∧ svg 2 1 bufC1 =
      "<?xml version=\"1.0\" encoding=\"UTF-8\" standalone=\"no\"?>\n<svg width=\"2\" height=\"1\" xmlns=\"http://www.w3.org/2000/svg\" viewBox=\"0 0 2 1\">\n  <rect x=\"0\" y=\"0\" width=\"2\" height=\"1\" fill=\"rgba(256,0,0,1)\" />\n</svg>" := by
  refine ⟨rfl, rectInstrs_bufC1, ?_⟩
  unfold svg svgPaths
  rw [rectInstrs_bufC1]
  decide

/-- C2 (counterexample): the pixels (100,100,100,255) and (101,101,101,255)
do NOT quantize to the same ColorKey. -/
theorem C2_counterexample :
    colorKey 100 100 100 255 ≠ colorKey 101 101 101 255 := by
  decide

/-- C2 (amended): the two pixels quantize to DIFFERENT ColorKeys:
`Math.round(100/2)*2 = 100` but `Math.round(101/2)*2 = Math.round(50.5)*2 =
51*2 = 102` (JavaScript rounds the exact half 50.5 up). -/
theorem C2_quantization :
    colorKey 100 100 100 255 = "rgba(100,100,100,1)"
    ∧ colorKey 101 101 101 255 = "rgba(102,102,102,1)" := by
  decide

/-- C3 (counterexample): on a zero-width buffer the conversion does not fail;
it returns a complete VectorDocument with zero rectangle instructions. -/
theorem C3_counterexample :
    rectInstrs 0 5 [] (sampleRate 0 5) = [] ∧ svg 0 5 [] = mkSvg 0 5 "" := by
  decide

/-- C3 (amended): for every input buffer with zero width or zero height the
core conversion performs no sampling iterations and returns the (complete,
empty) VectorDocument declaring the given dimensions; there is no
InvalidInput error path in the code. -/
theorem C3_degenerate_input (W H : Nat) (data : List Nat) (h : W = 0 ∨ H = 0) :
    rectInstrs W H data (sampleRate W H) = [] ∧ svg W H data = mkSvg W H "" := by
  have hnil : samplePairs W H data (sampleRate W H) = [] := by
    rcases h with h | h
    · subst h; exact samplePairs_width_zero _ _ _
    · subst h; exact samplePairs_height_zero _ _ _
  constructor
  · unfold rectInstrs colorMap
    rw [hnil]
    rfl
  · unfold svg svgPaths rectInstrs colorMap
    rw [hnil]
    rfl

/-- C3 (witness for the amended theorem). -/
theorem C3_degenerate_input_witness :
    ((3 : Nat) = 0 ∨ (0 : Nat) = 0)
    ∧ (rectInstrs 3 0 [] (sampleRate 3 0) = [] ∧ svg 3 0 [] = mkSvg 3 0 "") :=
  ⟨Or.inr rfl, C3_degenerate_input 3 0 [] (Or.inr rfl)⟩

/-- C7: the sampling stride is `max(1, floor(min(W,H) / 400))`, and for a
buffer whose shorter side is at most 400 pixels it is 1. -/
theorem C7_stride (W H : Nat) (_hW : 1 ≤ W) (_hH : 1 ≤ H) :
    sampleRate W H = max 1 (min W H / 400)
    ∧ (min W H ≤ 400 → sampleRate W H = 1) := by
  refine ⟨rfl, fun h => ?_⟩
  have h1 : min W H / 400 ≤ 1 := by
    calc min W H / 400 ≤ 400 / 400 := Nat.div_le_div_right h
    _ = 1 := rfl
  exact Nat.max_eq_left h1

/-- The sort comparator read as a proposition. -/
theorem cellLE_iff {a b : Rect} :
    cellLE a b = true ↔ a.y < b.y ∨ (a.y = b.y ∧ a.x ≤ b.x) := by
  simp [cellLE, Nat.blt_eq, Nat.ble_eq]

/-- C4: three horizontally adjacent same-row, same-color, same-stride cells at
x = 0, s, 2s sort-then-merge into the single rectangle {x:0, width:3s}; with a
different middle color, the outer bucket yields exactly the two cells
(x=0, width=s) and (x=2s, width=s) and the middle bucket its single cell. -/
theorem C4_merge (s y0 : Nat) (hs : 0 < s) :
    optimizeRects (sortCells [⟨0, y0, s, s⟩, ⟨s, y0, s, s⟩, ⟨2 * s, y0, s, s⟩])
        = [⟨0, y0, 3 * s, s⟩]
    ∧ optimizeRects (sortCells [⟨0, y0, s, s⟩, ⟨2 * s, y0, s, s⟩])
        = [⟨0, y0, s, s⟩, ⟨2 * s, y0, s, s⟩]
    ∧ optimizeRects (sortCells [⟨s, y0, s, s⟩]) = [⟨s, y0, s, s⟩] := by
  refine ⟨?_, ?_, ?_⟩
  · rw [sortCells_sorted_eq (by simp [List.pairwise_cons, cellLE_iff]; omega)]
    show mergeRun ⟨0, y0, s, s⟩ [⟨s, y0, s, s⟩, ⟨2 * s, y0, s, s⟩] = _
    unfold mergeRun
    rw [if_pos ⟨rfl, rfl, by simp⟩]
    unfold mergeRun
    rw [if_pos ⟨rfl, rfl, by simp; omega⟩]
    unfold mergeRun
    simp [Rect.mk.injEq]
    omega
  · rw [sortCells_sorted_eq (by simp [List.pairwise_cons, cellLE_iff])]
    show mergeRun ⟨0, y0, s, s⟩ [⟨2 * s, y0, s, s⟩] = _
    unfold mergeRun
    rw [if_neg (by simp; omega)]
    rfl
  · rw [sortCells_sorted_eq (by simp)]
    rfl

/-- C4 (witness). -/
theorem C4_merge_witness :
    0 < 2
    ∧ (optimizeRects (sortCells [⟨0, 7, 2, 2⟩, ⟨2, 7, 2, 2⟩, ⟨2 * 2, 7, 2, 2⟩])
          = [⟨0, 7, 3 * 2, 2⟩]
      ∧ optimizeRects (sortCells [⟨0, 7, 2, 2⟩, ⟨2 * 2, 7, 2, 2⟩])
          = [⟨0, 7, 2, 2⟩, ⟨2 * 2, 7, 2, 2⟩]
      ∧ optimizeRects (sortCells [⟨2, 7, 2, 2⟩]) = [⟨2, 7, 2, 2⟩]) :=
  ⟨by decide, C4_merge 2 7 (by decide)⟩

/-- C5: two vertically stacked same-color cells at (0,0) and (0,s) stay two
separate rectangles; in general the merge loop never joins two cells whose
rows differ. -/
theorem C5_no_vertical_merge (s : Nat) (hs : 0 < s) :
    optimizeRects (sortCells [⟨0, 0, s, s⟩, ⟨0, s, s, s⟩])
        = [⟨0, 0, s, s⟩, ⟨0, s, s, s⟩]
    ∧ ∀ c1 c2 : Rect, c1.y ≠ c2.y → optimizeRects [c1, c2] = [c1, c2] := by
  constructor
  · rw [sortCells_sorted_eq (by simp [List.pairwise_cons, cellLE_iff]; omega)]
    show mergeRun ⟨0, 0, s, s⟩ [⟨0, s, s, s⟩] = _
    unfold mergeRun
    rw [if_neg (by simp; omega)]
    rfl
  · intro c1 c2 hne
    show mergeRun c1 [c2] = _
    unfold mergeRun
    rw [if_neg (fun h => hne h.1.symm)]
    rfl

/-- C5 (witness). -/
theorem C5_no_vertical_merge_witness :
    0 < 3
    ∧ (optimizeRects (sortCells [⟨0, 0, 3, 3⟩, ⟨0, 3, 3, 3⟩])
          = [⟨0, 0, 3, 3⟩, ⟨0, 3, 3, 3⟩]
      ∧ ∀ c1 c2 : Rect, c1.y ≠ c2.y → optimizeRects [c1, c2] = [c1, c2]) :=
  ⟨by decide, C5_no_vertical_merge 3 (by decide)⟩

/-- C7 (witness). -/
theorem C7_stride_witness :
    (1 ≤ 10) ∧ (1 ≤ 10)
    ∧ (sampleRate 10 10 = max 1 (min 10 10 / 400)
        ∧ (min 10 10 ≤ 400 → sampleRate 10 10 = 1)) :=
  ⟨by decide, by decide, C7_stride 10 10 (by decide) (by decide)⟩

/-- C6: a buffer whose every pixel has alpha 0 produces a document with zero
rectangle instructions. -/
theorem C6_transparent (W H : Nat) (data : List Nat)
    (h : ∀ i, i < W * H → px data (4 * i + 3) = 0) :
    rectInstrs W H data (sampleRate W H) = [] ∧ svg W H data = mkSvg W H "" := by
  have hs : 0 < sampleRate W H := le_max_left 1 _
  have hnil : samplePairs W H data (sampleRate W H) = [] := by
    apply List.flatMap_eq_nil_iff.mpr
    intro j hj
    apply List.filterMap_eq_nil_iff.mpr
    intro i hi
    rw [List.mem_range] at hj hi
    have hx : i * sampleRate W H < W := mul_lt_of_lt_gridCount hs hi
    have hy : j * sampleRate W H < H := mul_lt_of_lt_gridCount hs hj
    have hidx : j * sampleRate W H * W + i * sampleRate W H < W * H := by
      calc j * sampleRate W H * W + i * sampleRate W H
          < j * sampleRate W H * W + W := by omega
        _ = (j * sampleRate W H + 1) * W := by ring
        _ ≤ H * W := Nat.mul_le_mul_right W (by omega)
        _ = W * H := Nat.mul_comm H W
    unfold sampleAt
    rw [if_pos]
    have h0 := h (j * sampleRate W H * W + i * sampleRate W H) hidx
    rw [Nat.mul_comm 4] at h0
    exact h0
  constructor
  · unfold rectInstrs colorMap
    rw [hnil]
    rfl
  · unfold svg svgPaths rectInstrs colorMap
    rw [hnil]
    rfl

/-- C6 (witness). -/
theorem C6_transparent_witness :
    (∀ i, i < 1 * 1 → px [9, 9, 9, 0] (4 * i + 3) = 0)
    ∧ (rectInstrs 1 1 [9, 9, 9, 0] (sampleRate 1 1) = []
        ∧ svg 1 1 [9, 9, 9, 0] = mkSvg 1 1 "") :=
  ⟨by decide, C6_transparent 1 1 [9, 9, 9, 0] (by decide)⟩

/-- C10: a sampled pixel with raw alpha between 1 and 6 is not discarded (only
alpha exactly 0 is skipped), yet its quantized opacity `round((n/255)*20)` is
0, so the conversion emits a rectangle whose fill string ends in ",0)" — a
fully transparent rectangle appears in the output document. Shown on a 1-by-1
buffer with arbitrary color channels. -/
theorem C10_invisible_fill (r g b n : Nat) (h1 : 1 ≤ n) (h6 : n ≤ 6) :
    aq n = 0
    ∧ colorKey r g b n
      = "rgba(" ++ Nat.repr (q2 r) ++ "," ++ Nat.repr (q2 g) ++ ","
        ++ Nat.repr (q2 b) ++ ",0)"
    ∧ rectInstrs 1 1 [r, g, b, n] (sampleRate 1 1)
      = [(colorKey r g b n, ⟨0, 0, 1, 1⟩)] := by
  have ha : aq n = 0 := Nat.div_eq_of_lt (by omega)
  have hn : ¬ px [r, g, b, n]
      ((0 * sampleRate 1 1 * 1 + 0 * sampleRate 1 1) * 4 + 3) = 0 := by
    show ¬ n = 0
    omega
  refine ⟨ha, ?_, ?_⟩
  · unfold colorKey
    rw [ha]
    show _ ++ "," ++ "0" ++ ")" = _
    rw [String.append_assoc _ "0" ")", String.append_assoc _ "," ("0" ++ ")")]
    rfl
  · have hsp : samplePairs 1 1 [r, g, b, n] (sampleRate 1 1)
        = [(colorKey r g b n, ⟨0, 0, 1, 1⟩)] := by
      unfold samplePairs
      rw [show List.range (gridCount 1 (sampleRate 1 1)) = [0] from rfl,
        List.flatMap_cons, List.flatMap_nil, List.filterMap_cons]
      unfold sampleAt
      rw [if_neg hn]
      rfl
    unfold rectInstrs colorMap
    rw [hsp]
    show (optimizeRects (sortCells [⟨0, 0, 1, 1⟩])).map _ ++ [] = _
    rw [show sortCells [⟨0, 0, 1, 1⟩] = [⟨0, 0, 1, 1⟩] from List.mergeSort_singleton _]
    rfl

/-- A byte-valued buffer entry reads back as a byte (the default is 0). -/
theorem px_le {data : List Nat} (hb : ∀ v ∈ data, v ≤ 255) (i : Nat) :
    px data i ≤ 255 := by
  unfold px
  rw [List.getD_eq_getElem?_getD]
  cases h : data[i]? with
  | none => simp
  | some v => simpa using hb v (List.getElem?_mem h)

/-- The quantized opacity index is in 0..20 for byte alphas. -/
theorem aq_le {n : Nat} (h : n ≤ 255) : aq n ≤ 20 := by
  unfold aq
  calc (8 * n + 51) / 102 ≤ (8 * 255 + 51) / 102 := Nat.div_le_div_right (by omega)
    _ = 20 := by norm_num

/-- Every rendered opacity value is a decimal fraction string. -/
theorem formatAlpha_decimal : ∀ k, k ≤ 20 → isDecimalFraction (formatAlpha k) = true := by
  decide

/-- A quantized color key has the spec's `rgba(R,G,B,A)` shape. -/
theorem isRgbaFill_colorKey {r g b n : Nat} (hn : n ≤ 255) :
    IsRgbaFill (colorKey r g b n) :=
  ⟨q2 r, q2 g, q2 b, formatAlpha (aq n), formatAlpha_decimal _ (aq_le hn), rfl⟩

/-- Membership in `insertCell`: the element either carries the inserted key or
was already present with its key. -/
theorem mem_insertCell_keys :
    ∀ {m : List (String × List Rect)} {k c e}, e ∈ insertCell m k c →
      e.1 = k ∨ ∃ e2 ∈ m, e2.1 = e.1 := by
  intro m
  induction m with
  | nil =>
    intro k c e he
    rw [insertCell, List.mem_singleton] at he
    subst he
    exact Or.inl rfl
  | cons e0 rest ih =>
    intro k c e he
    rw [insertCell] at he
    by_cases h0 : e0.1 = k
    · rw [if_pos h0, List.mem_cons] at he
      rcases he with he | he
      · subst he
        exact Or.inl h0
      · exact Or.inr ⟨e, List.mem_cons_of_mem _ he, rfl⟩
    · rw [if_neg h0, List.mem_cons] at he
      rcases he with he | he
      · subst he
        exact Or.inr ⟨e, List.mem_cons_self _ _, rfl⟩
      · rcases ih he with h | ⟨e2, he2, hk⟩
        · exact Or.inl h
        · exact Or.inr ⟨e2, List.mem_cons_of_mem _ he2, hk⟩

/-- Keys surviving the fold come from the accumulator or the pending samples. -/
theorem mem_foldl_insertCell_keys :
    ∀ (l : List (String × Rect)) (m : List (String × List Rect)) (e : String × List Rect),
      e ∈ List.foldl (fun m p => insertCell m p.1 p.2) m l →
      (∃ e2 ∈ m, e2.1 = e.1) ∨ (∃ p ∈ l, p.1 = e.1) := by
  intro l
  induction l with
  | nil =>
    intro m e he
    exact Or.inl ⟨e, he, rfl⟩
  | cons p l ih =>
    intro m e he
    rw [List.foldl_cons] at he
    rcases ih _ _ he with ⟨e2, he2, hk⟩ | ⟨q, hq, hk⟩
    · rcases mem_insertCell_keys he2 with h | ⟨e3, he3, hk3⟩
      · exact Or.inr ⟨p, List.mem_cons_self _ _, h ▸ hk⟩
      · exact Or.inl ⟨e3, he3, hk3.trans hk⟩
    · exact Or.inr ⟨q, List.mem_cons_of_mem _ hq, hk⟩

/-- Every key of the built color map is the key of some sample. -/
theorem mem_keys_buildMap {samples : List (String × Rect)} {e : String × List Rect}
    (he : e ∈ buildMap samples) : ∃ p ∈ samples, p.1 = e.1 := by
  rcases mem_foldl_insertCell_keys samples [] e he with ⟨e2, he2, _⟩ | h
  · exact absurd he2 (List.not_mem_nil _)
  · exact h

/-- Every sample's key is a quantized color key of four buffer reads. -/
theorem key_mem_samplePairs {W H : Nat} {data : List Nat} {s : Nat}
    {p : String × Rect} (hp : p ∈ samplePairs W H data s) :
    ∃ a, p.1 = colorKey (px data (a * 4)) (px data (a * 4 + 1))
      (px data (a * 4 + 2)) (px data (a * 4 + 3)) := by
  rw [samplePairs, List.mem_flatMap] at hp
  obtain ⟨j, _, hp⟩ := hp
  rw [List.mem_filterMap] at hp
  obtain ⟨i, _, hp⟩ := hp
  rw [sampleAt] at hp
  by_cases h0 : px data ((j * s * W + i * s) * 4 + 3) = 0
  · rw [if_pos h0] at hp
    exact absurd hp (by simp)
  · rw [if_neg h0] at hp
    refine ⟨j * s * W + i * s, ?_⟩
    have := Option.some.inj hp
    rw [← this]

/-- C8: every produced document is a well-formed vector document in the
spec's sense: XML declaration, root element declaring the canvas width and
height, namespace and matching viewBox, and a sequence of filled-rectangle
elements whose fill is `rgba(R,G,B,A)` with `A` a decimal fraction. The
declared dimensions equal the canvas dimensions for every buffer, in
particular 10x10 for a 10-by-10 canvas. -/
theorem C8_document_shape (W H : Nat) (data : List Nat)
    (hb : ∀ v ∈ data, v ≤ 255) : SpecWellFormedDoc W H (svg W H data) := by
  refine ⟨(rectInstrs W H data (sampleRate W H)).map (fun e => rectElem e.1 e.2),
    ?_, ?_⟩
  case refine_2 =>
    unfold svg mkSvg svgPaths
    rfl
  intro e he
  rw [List.mem_map] at he
  obtain ⟨p, hp, rfl⟩ := he
  have hkey : ∃ a, p.1 = colorKey (px data (a * 4)) (px data (a * 4 + 1))
      (px data (a * 4 + 2)) (px data (a * 4 + 3)) := by
    rw [rectInstrs, List.mem_flatMap] at hp
    obtain ⟨ent, hent, hpent⟩ := hp
    rw [List.mem_map] at hpent
    obtain ⟨r, _, hr⟩ := hpent
    obtain ⟨q, hq, hqk⟩ := mem_keys_buildMap hent
    obtain ⟨a, ha⟩ := key_mem_samplePairs hq
    refine ⟨a, ?_⟩
    rw [← hr, ← hqk, ha]
  obtain ⟨a, ha⟩ := hkey
  refine ⟨p.2.x, p.2.y, p.2.width, p.2.height, p.1, ?_, rfl⟩
  rw [ha]
  exact isRgbaFill_colorKey (px_le hb _)

/-- C8 (witness). -/
theorem C8_document_shape_witness :
    (∀ v ∈ ([128, 64, 32, 255] : List Nat), v ≤ 255)
    ∧ SpecWellFormedDoc 1 1 (svg 1 1 [128, 64, 32, 255]) :=
  ⟨by decide, C8_document_shape 1 1 [128, 64, 32, 255] (by decide)⟩

/-! ### Structure of the sample stream (for the coverage invariant) -/

/-- Unfolding a successful sample: the cell records its coordinates and the
stride, and the pixel was not fully transparent. -/
theorem sampleAt_eq_some {W : Nat} {data : List Nat} {s x y : Nat}
    {p : String × Rect} (h : sampleAt W data s x y = some p) :
    p.2 = ⟨x, y, s, s⟩ ∧ px data ((y * W + x) * 4 + 3) ≠ 0 := by
  rw [sampleAt] at h
  by_cases h0 : px data ((y * W + x) * 4 + 3) = 0
  · rw [if_pos h0] at h
    exact absurd h (by simp)
  · rw [if_neg h0] at h
    refine ⟨?_, h0⟩
    have := Option.some.inj h
    rw [← this]

/-- The sample taken at grid position `(i, j)` is in the sample stream. -/
theorem sample_mem_samplePairs {W H : Nat} {data : List Nat} {s i j : Nat}
    (hs : 0 < s) (hi : i * s < W) (hj : j * s < H)
    (ha : px data ((j * s * W + i * s) * 4 + 3) ≠ 0) :
    (colorKey (px data ((j * s * W + i * s) * 4))
        (px data ((j * s * W + i * s) * 4 + 1))
        (px data ((j * s * W + i * s) * 4 + 2))
        (px data ((j * s * W + i * s) * 4 + 3)),
      (⟨i * s, j * s, s, s⟩ : Rect)) ∈ samplePairs W H data s := by
  rw [samplePairs, List.mem_flatMap]
  refine ⟨j, List.mem_range.mpr (lt_gridCount_of_mul_lt hs hj), ?_⟩
  rw [List.mem_filterMap]
  refine ⟨i, List.mem_range.mpr (lt_gridCount_of_mul_lt hs hi), ?_⟩
  rw [sampleAt, if_neg ha]

/-- Every sample's cell has width and height equal to the stride. -/
theorem dims_samplePairs {W H : Nat} {data : List Nat} {s : Nat}
    {p : String × Rect} (hp : p ∈ samplePairs W H data s) :
    p.2.width = s ∧ p.2.height = s := by
  rw [samplePairs, List.mem_flatMap] at hp
  obtain ⟨j, _, hp⟩ := hp
  rw [List.mem_filterMap] at hp
  obtain ⟨i, _, hp⟩ := hp
  rw [(sampleAt_eq_some hp).1]
  exact ⟨rfl, rfl⟩

/-- The row-major sampling loop produces cells in strictly increasing grid
order: later rows strictly below, same-row cells at least one stride apart. -/
theorem pairwise_samplePairs (W H : Nat) (data : List Nat) {s : Nat} (hs : 0 < s) :
    (samplePairs W H data s).Pairwise (fun p q => succCell s p.2 q.2) := by
  rw [samplePairs, List.pairwise_flatMap]
  constructor
  · intro j _
    rw [List.pairwise_filterMap]
    apply (List.pairwise_lt_range _).imp
    intro i1 i2 h12 p hp q hq
    rw [Option.mem_def] at hp hq
    rw [(sampleAt_eq_some hp).1, (sampleAt_eq_some hq).1]
    right
    refine ⟨rfl, ?_⟩
    show i1 * s + s ≤ i2 * s
    calc i1 * s + s = (i1 + 1) * s := by ring
      _ ≤ i2 * s := Nat.mul_le_mul_right s h12
  · apply (List.pairwise_lt_range _).imp
    intro j1 j2 h12 p hp q hq
    rw [List.mem_filterMap] at hp hq
    obtain ⟨i1, _, hp⟩ := hp
    obtain ⟨i2, _, hq⟩ := hq
    rw [(sampleAt_eq_some hp).1, (sampleAt_eq_some hq).1]
    left
    show j1 * s < j2 * s
    exact Nat.mul_lt_mul_of_lt_of_le h12 (Nat.le_refl s) hs

/-- A list in which at most one position can satisfy `p` (any two positions
are incompatible) and which contains a satisfying element has `countP p = 1`. -/
theorem countP_eq_one_of {α : Type} {l : List α} {p : α → Bool}
    (hpair : l.Pairwise (fun a b => ¬(p a = true ∧ p b = true)))
    (hmem : ∃ a ∈ l, p a = true) : l.countP p = 1 := by
  induction l with
  | nil => simp at hmem
  | cons x l ih =>
    rw [List.pairwise_cons] at hpair
    by_cases hx : p x = true
    · rw [List.countP_cons_of_pos _ _ hx]
      have hz : l.countP p = 0 := List.countP_eq_zero.mpr
        (fun b hb hpb => (hpair.1 b hb) ⟨hx, hpb⟩)
      rw [hz]
    · rw [List.countP_cons_of_neg _ _ hx]
      apply ih hpair.2
      rcases hmem with ⟨a, ha, hpa⟩
      rcases List.mem_cons.mp ha with rfl | ha
      · exact absurd hpa hx
      · exact ⟨a, ha, hpa⟩

/-- Two distinct satisfying values force `countP ≥ 2`. -/
theorem two_le_countP {α : Type} (p : α → Bool) {l : List α} {a b : α}
    (ha : a ∈ l) (hb : b ∈ l) (hab : a ≠ b)
    (hpa : p a = true) (hpb : p b = true) : 2 ≤ l.countP p := by
  induction l with
  | nil => simp at ha
  | cons x l ih =>
    rcases List.mem_cons.mp ha with rfl | ha2
    · rcases List.mem_cons.mp hb with rfl | hb2
      · exact absurd rfl hab
      · rw [List.countP_cons_of_pos _ _ hpa]
        have : 0 < l.countP p := List.countP_pos_iff.mpr ⟨b, hb2, hpb⟩
        omega
    · rcases List.mem_cons.mp hb with rfl | hb2
      · rw [List.countP_cons_of_pos _ _ hpb]
        have : 0 < l.countP p := List.countP_pos_iff.mpr ⟨a, ha2, hpa⟩
        omega
      · have := ih ha2 hb2
        rw [List.countP_cons]
        omega

/-! ### The color map as a keyed partition of the sample stream -/

/-- `insertCell` acts on a lookup like an append on the addressed bucket. -/
theorem bucketOf_insertCell :
    ∀ (m : List (String × List Rect)) (kk k : String) (c : Rect),
      bucketOf (insertCell m kk c) k
        = if kk = k then bucketOf m k ++ [c] else bucketOf m k := by
  intro m
  induction m with
  | nil =>
    intro kk k c
    simp only [insertCell, bucketOf]
    by_cases h : kk = k
    · simp [h]
    · simp [h]
  | cons e rest ih =>
    intro kk k c
    simp only [insertCell]
    by_cases h1 : e.1 = kk
    · rw [if_pos h1]
      simp only [bucketOf]
      by_cases h2 : e.1 = k
      · rw [if_pos h2, if_pos h2, if_pos (h1.symm.trans h2)]
      · rw [if_neg h2, if_neg h2]
        have h3 : ¬ kk = k := fun h => h2 (h1.trans h)
        rw [if_neg h3]
    · rw [if_neg h1]
      simp only [bucketOf]
      by_cases h2 : e.1 = k
      · rw [if_pos h2, if_pos h2]
        have h3 : ¬ kk = k := fun h => h1 (h2.trans h.symm)
        rw [if_neg h3]
      · rw [if_neg h2, if_neg h2]
        exact ih kk k c

/-- Folding the samples into the map appends each matching cell in order. -/
theorem bucketOf_foldl :
    ∀ (l : List (String × Rect)) (m : List (String × List Rect)) (k : String),
      bucketOf (List.foldl (fun m p => insertCell m p.1 p.2) m l) k
        = bucketOf m k ++ (l.filter (fun p => p.1 == k)).map Prod.snd := by
  intro l
  induction l with
  | nil =>
    intro m k
    simp
  | cons p l ih =>
    intro m k
    rw [List.foldl_cons, ih, bucketOf_insertCell, List.filter_cons]
    by_cases h : p.1 = k
    · rw [if_pos h]
      simp [h]
    · rw [if_neg h]
      simp [h]

/-- The color map's bucket for a key is exactly the subsequence of sampled
cells carrying that key, in scan order. -/
theorem bucketOf_colorMap (W H : Nat) (data : List Nat) (s : Nat) (k : String) :
    bucketOf (colorMap W H data s) k
      = ((samplePairs W H data s).filter (fun p => p.1 == k)).map Prod.snd := by
  unfold colorMap buildMap
  rw [bucketOf_foldl]
  rfl

/-- The key list produced by one insertion. -/
theorem keys_insertCell (m : List (String × List Rect)) (k : String) (c : Rect) :
    (insertCell m k c).map Prod.fst
      = if k ∈ m.map Prod.fst then m.map Prod.fst else m.map Prod.fst ++ [k] := by
  induction m with
  | nil => simp [insertCell]
  | cons e rest ih =>
    simp only [insertCell]
    by_cases h1 : e.1 = k
    · rw [if_pos h1]
      simp [h1]
    · rw [if_neg h1]
      simp only [List.map_cons, ih, List.mem_cons]
      by_cases h2 : k ∈ rest.map Prod.fst
      · rw [if_pos h2, if_pos (Or.inr h2)]
      · rw [if_neg h2, if_neg ?_]
        · rfl
        · rintro (h | h)
          · exact h1 h.symm
          · exact h2 h

/-- The built map never repeats a key. -/
theorem nodup_keys_buildMap (samples : List (String × Rect)) :
    ((buildMap samples).map Prod.fst).Nodup := by
  suffices h : ∀ (l : List (String × Rect)) (m : List (String × List Rect)),
      (m.map Prod.fst).Nodup →
      ((List.foldl (fun m p => insertCell m p.1 p.2) m l).map Prod.fst).Nodup by
    exact h samples [] (by simp)
  intro l
  induction l with
  | nil => intro m hm; simpa using hm
  | cons p l ih =>
    intro m hm
    rw [List.foldl_cons]
    apply ih
    rw [keys_insertCell]
    by_cases h : p.1 ∈ m.map Prod.fst
    · rwa [if_pos h]
    · rw [if_neg h]
      exact List.Nodup.append hm (List.nodup_singleton _)
        (fun a ha hb => h (List.mem_singleton.mp hb ▸ ha))

/-- In a map with distinct keys, lookup of a member entry's key returns the
entry's bucket. -/
theorem entry_eq_bucketOf {m : List (String × List Rect)}
    (hnd : (m.map Prod.fst).Nodup) {e : String × List Rect} (he : e ∈ m) :
    bucketOf m e.1 = e.2 := by
  induction m with
  | nil => simp at he
  | cons e0 rest ih =>
    rcases List.mem_cons.mp he with rfl | he2
    · simp [bucketOf]
    · have hk : ¬ e0.1 = e.1 := by
        rw [List.map_cons, List.nodup_cons] at hnd
        intro h
        exact hnd.1 (h ▸ List.mem_map_of_mem Prod.fst he2)
      rw [bucketOf, if_neg hk]
      exact ih (by rw [List.map_cons, List.nodup_cons] at hnd; exact hnd.2) he2

/-- A nonempty lookup result is the bucket of an actual map entry. -/
theorem bucketOf_mem {m : List (String × List Rect)} {k : String}
    (h : bucketOf m k ≠ []) : (k, bucketOf m k) ∈ m := by
  induction m with
  | nil => exact absurd rfl h
  | cons e rest ih =>
    by_cases h1 : e.1 = k
    · rw [bucketOf, if_pos h1]
      refine List.mem_cons.mpr (Or.inl ?_)
      rw [← h1]
    · rw [bucketOf, if_neg h1]
      rw [bucketOf, if_neg h1] at h
      exact List.mem_cons_of_mem _ (ih h)

/-! ### Total correctness of the merge loop -/

/-- The coverage test read as a proposition. -/
theorem coversB_iff {r c : Rect} :
    coversB r c = true ↔ r.y = c.y ∧ r.x ≤ c.x ∧ c.x + c.width ≤ r.x + r.width := by
  simp [coversB, Nat.ble_eq, and_assoc]

/-- Master invariant of the merge loop: on a strictly grid-ordered tail whose
cells all measure `s` by `s`, (1) every nonempty span inside the accumulator
is covered by exactly one output rectangle, (2) every pending cell is covered
by exactly one output rectangle, and (3) every output rectangle starts at or
after the accumulator in scan order. -/
theorem mergeRun_spec {s : Nat} (hs : 0 < s) :
    ∀ (rest : List Rect) (current : Rect),
      current.height = s → 0 < current.width →
      (∀ c ∈ rest, c.width = s ∧ c.height = s) →
      rest.Pairwise (succCell s) →
      (∀ c ∈ rest.head?, afterEnd current c) →
      (∀ c : Rect, c.y = current.y → 0 < c.width → current.x ≤ c.x →
          c.x + c.width ≤ current.x + current.width →
          (mergeRun current rest).countP (fun r => coversB r c) = 1)
      ∧ (∀ c ∈ rest, (mergeRun current rest).countP (fun r => coversB r c) = 1)
      ∧ (∀ r ∈ mergeRun current rest,
          current.y < r.y ∨ (current.y = r.y ∧ current.x ≤ r.x)) := by
  intro rest
  induction rest with
  | nil =>
    intro current hch hcw _ _ _
    refine ⟨?_, by simp, ?_⟩
    · intro c hcy hcw2 hcx hce
      show List.countP _ [current] = 1
      rw [List.countP_cons_of_pos (fun r => coversB r c) _
        (coversB_iff.mpr ⟨hcy.symm, hcx, hce⟩)]
      rfl
    · intro r hr
      rw [show mergeRun current [] = [current] from rfl, List.mem_singleton] at hr
      subst hr
      exact Or.inr ⟨rfl, Nat.le_refl _⟩
  | cons r0 rest ih =>
    intro current hch hcw hdim hpair hhd
    have hr0dim : r0.width = s ∧ r0.height = s := hdim r0 (List.mem_cons_self _ _)
    have hhd0 : afterEnd current r0 := hhd r0 rfl
    have hpc := List.pairwise_cons.mp hpair
    by_cases hm : r0.y = current.y ∧ r0.height = current.height
        ∧ r0.x = current.x + current.width
    · have hmr : mergeRun current (r0 :: rest)
          = mergeRun ⟨current.x, current.y, current.width + r0.width,
              current.height⟩ rest := by
        rw [mergeRun, if_pos hm]
      have hd2 : ∀ c ∈ rest.head?,
          afterEnd (⟨current.x, current.y, current.width + r0.width,
            current.height⟩ : Rect) c := by
        intro c hc
        have hsucc := hpc.1 c (List.mem_of_mem_head? hc)
        have e1 := hm.1
        have e2 := hm.2.2
        have e3 := hr0dim.1
        unfold afterEnd succCell at *
        dsimp only at *
        rcases hsucc with h | ⟨h1, h2⟩
        · omega
        · omega
      obtain ⟨ih1, ih2, ih3⟩ := ih ⟨current.x, current.y,
          current.width + r0.width, current.height⟩ hch (by dsimp only; omega)
        (fun c hc => hdim c (List.mem_cons_of_mem _ hc)) hpc.2 hd2
      rw [hmr]
      refine ⟨?_, ?_, ?_⟩
      · intro c hcy hcw2 hcx hce
        refine ih1 c hcy hcw2 hcx ?_
        dsimp only
        omega
      · intro c hc
        rcases List.mem_cons.mp hc with rfl | hc2
        · refine ih1 c hm.1 ?_ ?_ ?_
          · rw [hr0dim.1]
            exact hs
          · dsimp only
            rw [hm.2.2]
            omega
          · dsimp only
            rw [hm.2.2]
            omega
        · exact ih2 c hc2
      · intro r hr
        have h3 := ih3 r hr
        dsimp only at h3
        exact h3
    · have hmr : mergeRun current (r0 :: rest) = current :: mergeRun r0 rest := by
        rw [mergeRun, if_neg hm]
      have hstrict : current.y < r0.y
          ∨ (current.y = r0.y ∧ current.x + current.width < r0.x) := by
        rcases hhd0 with h | ⟨hy, hx⟩
        · exact Or.inl h
        · right
          refine ⟨hy, ?_⟩
          rcases Nat.eq_or_lt_of_le hx with heq | hlt
          · exact absurd ⟨hy.symm, by rw [hr0dim.2, hch], heq.symm⟩ hm
          · exact hlt
      have hd2 : ∀ c ∈ rest.head?, afterEnd r0 c := by
        intro c hc
        have hsucc := hpc.1 c (List.mem_of_mem_head? hc)
        rcases hsucc with h | ⟨h1, h2⟩
        · exact Or.inl h
        · refine Or.inr ⟨h1, ?_⟩
          rw [hr0dim.1]
          omega
      obtain ⟨ih1, ih2, ih3⟩ := ih r0 hr0dim.2 (by rw [hr0dim.1]; exact hs)
        (fun c hc => hdim c (List.mem_cons_of_mem _ hc)) hpc.2 hd2
      rw [hmr]
      refine ⟨?_, ?_, ?_⟩
      · intro c hcy hcw2 hcx hce
        rw [List.countP_cons_of_pos (fun r => coversB r c) _
          (coversB_iff.mpr ⟨hcy.symm, hcx, hce⟩)]
        have hzero : (mergeRun r0 rest).countP (fun r => coversB r c) = 0 := by
          apply List.countP_eq_zero.mpr
          intro r hr hcov
          rcases coversB_iff.mp hcov with ⟨hry, hrx, hre⟩
          rcases ih3 r hr with h | ⟨hy2, hx2⟩
          · rcases hstrict with h1 | ⟨h1, h2⟩ <;> omega
          · rcases hstrict with h1 | ⟨h1, h2⟩ <;> omega
        rw [hzero]
      · intro c hc
        rcases List.mem_cons.mp hc with rfl | hc2
        · have hneg : ¬ coversB current c = true := by
            intro hcov
            rcases coversB_iff.mp hcov with ⟨hry, hrx, hre⟩
            have h5 := hr0dim.1
            rcases hstrict with h1 | ⟨h1, h2⟩ <;> omega
          rw [List.countP_cons_of_neg (fun r => coversB r c) _ hneg]
          exact ih1 c rfl (by rw [hr0dim.1]; exact hs) (Nat.le_refl _) (Nat.le_refl _)
        · have hneg : ¬ coversB current c = true := by
            intro hcov
            rcases coversB_iff.mp hcov with ⟨hry, hrx, hre⟩
            have hsucc := hpc.1 c hc2
            have h5 := (hdim c (List.mem_cons_of_mem _ hc2)).1
            rcases hstrict with h1 | ⟨h1, h2⟩ <;>
              rcases hsucc with h3 | ⟨h3, h4⟩ <;> omega
          rw [List.countP_cons_of_neg (fun r => coversB r c) _ hneg]
          exact ih2 c hc2
      · intro r hr
        rcases List.mem_cons.mp hr with rfl | hr2
        · exact Or.inr ⟨rfl, Nat.le_refl _⟩
        · rcases ih3 r hr2 with h | ⟨hy2, hx2⟩ <;>
            rcases hstrict with h1 | ⟨h1, h2⟩
          · exact Or.inl (h1.trans h)
          · exact Or.inl (by omega)
          · exact Or.inl (by omega)
          · exact Or.inr ⟨by omega, by omega⟩

/-- Coverage for the whole merge pass: on a strictly grid-ordered bucket of
stride-sized cells, every cell is covered by exactly one output rectangle. -/
theorem optimizeRects_countP {s : Nat} (hs : 0 < s) (cells : List Rect)
    (hdim : ∀ c ∈ cells, c.width = s ∧ c.height = s)
    (hpair : cells.Pairwise (succCell s)) :
    ∀ c ∈ cells, (optimizeRects cells).countP (fun r => coversB r c) = 1 := by
  cases cells with
  | nil =>
    intro c hc
    exact absurd hc (List.not_mem_nil c)
  | cons c0 rest =>
    intro c hc
    have hd0 := hdim c0 (List.mem_cons_self _ _)
    have hpc := List.pairwise_cons.mp hpair
    have hhd : ∀ c ∈ rest.head?, afterEnd c0 c := by
      intro c1 hc1
      have hsucc := hpc.1 c1 (List.mem_of_mem_head? hc1)
      rcases hsucc with h | ⟨h1, h2⟩
      · exact Or.inl h
      · refine Or.inr ⟨h1, ?_⟩
        rw [hd0.1]
        omega
    obtain ⟨h1, h2, _⟩ := mergeRun_spec hs rest c0 hd0.2 (by rw [hd0.1]; exact hs)
      (fun c1 hc1 => hdim c1 (List.mem_cons_of_mem _ hc1)) hpc.2 hhd
    show (mergeRun c0 rest).countP _ = 1
    rcases List.mem_cons.mp hc with rfl | hc2
    · exact h1 c rfl (by rw [hd0.1]; exact hs) (Nat.le_refl _) (Nat.le_refl _)
    · exact h2 c hc2

/-! ### The sort step preserves the grid structure -/

theorem cellLE_total : ∀ a b : Rect, cellLE a b || cellLE b a := by
  intro a b
  simp only [Bool.or_eq_true, cellLE_iff]
  omega

theorem cellLE_trans : ∀ a b c : Rect, cellLE a b → cellLE b c → cellLE a c := by
  intro a b c hab hbc
  simp only [cellLE_iff] at *
  omega

/-- Sorting a bucket whose cells are pairwise on the grid (in either order)
yields a strictly grid-ordered list. -/
theorem pairwise_sortCells {s : Nat} (hs : 0 < s) {l : List Rect}
    (hp : l.Pairwise (succCell s)) : (sortCells l).Pairwise (succCell s) := by
  have h1 : (sortCells l).Pairwise (fun a b => cellLE a b = true) :=
    List.sorted_mergeSort cellLE_trans cellLE_total l
  have hsym : ∀ {x y : Rect}, (succCell s x y ∨ succCell s y x) →
      (succCell s y x ∨ succCell s x y) := fun h => h.symm
  have h2 : (sortCells l).Pairwise (fun a b => succCell s a b ∨ succCell s b a) :=
    ((List.mergeSort_perm l cellLE).pairwise_iff hsym).mpr
      (hp.imp (fun h => Or.inl h))
  refine (h1.and h2).imp ?_
  rintro a b ⟨hle, hor⟩
  rw [cellLE_iff] at hle
  unfold succCell at *
  rcases hor with h | h
  · exact h
  · omega

/-- The bucket of any key is strictly grid-ordered (it is a subsequence of
the row-major sample stream). -/
theorem pairwise_bucketOf (W H : Nat) (data : List Nat) {s : Nat} (hs : 0 < s)
    (k : String) :
    (bucketOf (colorMap W H data s) k).Pairwise (succCell s) := by
  rw [bucketOf_colorMap]
  apply List.pairwise_map.mpr
  exact List.Pairwise.filter _ (pairwise_samplePairs W H data hs)

/-- The cells of any bucket measure stride by stride. -/
theorem dims_bucketOf (W H : Nat) (data : List Nat) (s : Nat) (k : String) :
    ∀ c ∈ bucketOf (colorMap W H data s) k, c.width = s ∧ c.height = s := by
  rw [bucketOf_colorMap]
  intro c hc
  rw [List.mem_map] at hc
  obtain ⟨p, hp, hpc⟩ := hc
  rw [← hpc]
  exact dims_samplePairs (List.mem_of_mem_filter hp)

/-- C9: for every pixel buffer and stride, a sampled grid coordinate whose
pixel has alpha > 0 (i) appears in exactly one Cell of the sample stream,
(ii) lies in exactly one ColorKey bucket of the color map, and (iii) after
sorting and merging its bucket, its grid span is covered by exactly one
emitted MergedRect of that bucket. -/
theorem C9_coverage (W H : Nat) (data : List Nat) (s i j : Nat)
    (hs : 0 < s) (hi : i * s < W) (hj : j * s < H)
    (ha : px data ((j * s * W + i * s) * 4 + 3) ≠ 0) :
    (samplePairs W H data s).countP
        (fun p => p.2.x == i * s && p.2.y == j * s) = 1
    ∧ (colorMap W H data s).countP
        (fun e => e.2.any (fun c => c.x == i * s && c.y == j * s)) = 1
    ∧ (optimizeRects (sortCells (bucketOf (colorMap W H data s)
          (colorKey (px data ((j * s * W + i * s) * 4))
            (px data ((j * s * W + i * s) * 4 + 1))
            (px data ((j * s * W + i * s) * 4 + 2))
            (px data ((j * s * W + i * s) * 4 + 3)))))).countP
        (fun r => coversB r ⟨i * s, j * s, s, s⟩) = 1 := by
  set key := colorKey (px data ((j * s * W + i * s) * 4))
    (px data ((j * s * W + i * s) * 4 + 1))
    (px data ((j * s * W + i * s) * 4 + 2))
    (px data ((j * s * W + i * s) * 4 + 3)) with hkeydef
  have hmem : (key, (⟨i * s, j * s, s, s⟩ : Rect)) ∈ samplePairs W H data s :=
    sample_mem_samplePairs hs hi hj ha
  have hpair1 : (samplePairs W H data s).Pairwise
      (fun a b => ¬((a.2.x == i * s && a.2.y == j * s) = true
        ∧ (b.2.x == i * s && b.2.y == j * s) = true)) := by
    refine (pairwise_samplePairs W H data hs).imp ?_
    intro a b hsucc hand
    obtain ⟨hA, hB⟩ := hand
    simp only [Bool.and_eq_true, beq_iff_eq] at hA hB
    unfold succCell at hsucc
    omega
  have h1 : (samplePairs W H data s).countP
      (fun p => p.2.x == i * s && p.2.y == j * s) = 1 :=
    countP_eq_one_of hpair1 ⟨_, hmem, by simp⟩
  have hcellmem : (⟨i * s, j * s, s, s⟩ : Rect)
      ∈ bucketOf (colorMap W H data s) key := by
    rw [bucketOf_colorMap]
    exact List.mem_map_of_mem _ (List.mem_filter.mpr ⟨hmem, by simp⟩)
  have hq_entry : (key, bucketOf (colorMap W H data s) key)
      ∈ colorMap W H data s := by
    apply bucketOf_mem
    intro hnil
    rw [hnil] at hcellmem
    exact absurd hcellmem (List.not_mem_nil _)
  have hnd : ((colorMap W H data s).map Prod.fst).Nodup := nodup_keys_buildMap _
  have hpairkeys : (colorMap W H data s).Pairwise (fun e1 e2 => e1.1 ≠ e2.1) :=
    List.pairwise_map.mp hnd
  have hkey_only : ∀ e ∈ colorMap W H data s,
      (e.2.any (fun c => c.x == i * s && c.y == j * s)) = true → e.1 = key := by
    intro e he hany
    rw [List.any_eq_true] at hany
    obtain ⟨c, hc, hcoord⟩ := hany
    have hb : bucketOf (colorMap W H data s) e.1 = e.2 := entry_eq_bucketOf hnd he
    rw [bucketOf_colorMap] at hb
    rw [← hb, List.mem_map] at hc
    obtain ⟨p, hp, hpc⟩ := hc
    have hpmem := List.mem_of_mem_filter hp
    have hpkeyeq : p.1 = e.1 := by
      have := (List.mem_filter.mp hp).2
      simpa using this
    by_contra hne
    have hppred : (p.2.x == i * s && p.2.y == j * s) = true := by
      rw [hpc]
      exact hcoord
    have hpneq : p ≠ (key, (⟨i * s, j * s, s, s⟩ : Rect)) := by
      intro heq
      apply hne
      rw [← hpkeyeq, heq]
    have h2le := two_le_countP (fun q => q.2.x == i * s && q.2.y == j * s)
      hpmem hmem hpneq hppred (by simp)
    omega
  have hpair2 : (colorMap W H data s).Pairwise (fun e1 e2 =>
      ¬((e1.2.any (fun c => c.x == i * s && c.y == j * s)) = true
        ∧ (e2.2.any (fun c => c.x == i * s && c.y == j * s)) = true)) := by
    refine List.Pairwise.imp_of_mem ?_ hpairkeys
    intro e1 e2 h1m h2m hne hand
    exact hne ((hkey_only e1 h1m hand.1).trans (hkey_only e2 h2m hand.2).symm)
  have h2 : (colorMap W H data s).countP
      (fun e => e.2.any (fun c => c.x == i * s && c.y == j * s)) = 1 := by
    apply countP_eq_one_of hpair2
    refine ⟨(key, bucketOf (colorMap W H data s) key), hq_entry, ?_⟩
    rw [List.any_eq_true]
    exact ⟨_, hcellmem, by simp⟩
  have hbp : (sortCells (bucketOf (colorMap W H data s) key)).Pairwise (succCell s) :=
    pairwise_sortCells hs (pairwise_bucketOf W H data hs key)
  have hbd : ∀ c ∈ sortCells (bucketOf (colorMap W H data s) key),
      c.width = s ∧ c.height = s := by
    intro c hc
    rw [sortCells, List.mem_mergeSort] at hc
    exact dims_bucketOf W H data s key c hc
  have hcell2 : (⟨i * s, j * s, s, s⟩ : Rect)
      ∈ sortCells (bucketOf (colorMap W H data s) key) := by
    rw [sortCells, List.mem_mergeSort]
    exact hcellmem
  have h3 := optimizeRects_countP hs _ hbd hbp _ hcell2
  exact ⟨h1, h2, h3⟩

/-- C9 (witness). -/
theorem C9_coverage_witness :
    0 < 1 ∧ 0 * 1 < 1 ∧ 0 * 1 < 1
    ∧ px [10, 20, 30, 40] ((0 * 1 * 1 + 0 * 1) * 4 + 3) ≠ 0
    ∧ ((samplePairs 1 1 [10, 20, 30, 40] 1).countP
        (fun p => p.2.x == 0 * 1 && p.2.y == 0 * 1) = 1
      ∧ (colorMap 1 1 [10, 20, 30, 40] 1).countP
          (fun e => e.2.any (fun c => c.x == 0 * 1 && c.y == 0 * 1)) = 1
      ∧ (optimizeRects (sortCells (bucketOf (colorMap 1 1 [10, 20, 30, 40] 1)
            (colorKey (px [10, 20, 30, 40] ((0 * 1 * 1 + 0 * 1) * 4))
              (px [10, 20, 30, 40] ((0 * 1 * 1 + 0 * 1) * 4 + 1))
              (px [10, 20, 30, 40] ((0 * 1 * 1 + 0 * 1) * 4 + 2))
              (px [10, 20, 30, 40] ((0 * 1 * 1 + 0 * 1) * 4 + 3)))))).countP
          (fun r => coversB r ⟨0 * 1, 0 * 1, 1, 1⟩) = 1) :=
  ⟨by decide, by decide, by decide, by decide,
    C9_coverage 1 1 [10, 20, 30, 40] 1 0 0 (by decide) (by decide) (by decide)
      (by decide)⟩

/-- C10 (witness). -/
theorem C10_invisible_fill_witness :
    1 ≤ 3 ∧ 3 ≤ 6
    ∧ (aq 3 = 0
      ∧ colorKey 10 20 30 3
        = "rgba(" ++ Nat.repr (q2 10) ++ "," ++ Nat.repr (q2 20) ++ ","
          ++ Nat.repr (q2 30) ++ ",0)"
      ∧ rectInstrs 1 1 [10, 20, 30, 3] (sampleRate 1 1)
        = [(colorKey 10 20 30 3, ⟨0, 0, 1, 1⟩)]) :=
  ⟨by decide, by decide, C10_invisible_fill 10 20 30 3 (by decide) (by decide)⟩

end ImgToSvg
